import Mathlib

/-!
Shallow embedding of `src/guardian_life_scraper_github.py`, the Guardian Life
career scraper: listing collection by offset pagination, per-path detail
fetching, HTML stripping, left-join merge, export, and run-history recording.

Network I/O is modelled by response functions passed as parameters:
`pages : Nat → PageResp` gives the response of the listing endpoint at each
offset, and `fetch : Nat → Option Detail` gives the response of the detail
endpoint for each path (`none` models a failed request, whose handler in
`role_details_fetch` returns the empty dict `{}`).  Paths and content keys
are modelled as natural numbers.
-/

namespace GuardianScraper

/-- A listing record returned inside a page's `jobPostings` array.
`bulletFields` is the content-identifying field used for deduplication;
`externalPath` is the path used to fetch the detail record. -/
structure Listing where
  bulletFields : Nat
  externalPath : Nat
  deriving DecidableEq, Repr

/-- The raw outcome of one listing-page HTTP request in `role_list_collect`:
either the request/parse raised (`fail`), or it returned a JSON object whose
optional `jobPostings` member is modelled by an `Option` (a well-formed
response may lack the key). -/
inductive PageResp where
  | fail : PageResp
  | ok : Option (List Listing) → PageResp
  deriving DecidableEq

/-- `role_list_collect` (lines 113-134): on success it returns the response
JSON; on any exception it logs and returns `{'jobPostings': []}`, i.e. a JSON
object whose `jobPostings` member is the empty list. -/
def role_list_collect (pages : Nat → PageResp) (offset : Nat) : Option (List Listing) :=
  match pages offset with
  | .fail => some []
  | .ok jp => jp

/-- The offsets `range(0, 500, 20)` iterated by the collection loop in
`scrape_jobs` (line 163): `0, 20, ..., 480`. -/
def pageOffsets : List Nat := (List.range 25).map (· * 20)

/-- The collection loop body of `scrape_jobs` (lines 162-168), over an explicit
list of remaining offsets.  Returns the accumulated `collect_list_roles`
together with the list of offsets actually requested.  For each offset the
loop extends the accumulator by the page's `jobPostings` when the key is
present, and breaks when `results.get('jobPostings')` is falsy (key absent or
empty list). -/
def collectAux (pages : Nat → PageResp) : List Nat → List Listing × List Nat
  | [] => ([], [])
  | off :: rest =>
    let results := role_list_collect pages off
    let ext := results.getD []
    if (results.getD []).isEmpty then
      (ext, [off])
    else
      let r := collectAux pages rest
      (ext ++ r.1, off :: r.2)

/-- The accumulated pre-deduplication listing sequence of one run. -/
def collectItems (pages : Nat → PageResp) : List Listing :=
  (collectAux pages pageOffsets).1

/-- The offsets the collection loop actually issued requests for. -/
def collectOffsets (pages : Nat → PageResp) : List Nat :=
  (collectAux pages pageOffsets).2

/-- The loop's break condition at a given offset: the (error-recovered)
response has a falsy `jobPostings` member. -/
def stopsAt (pages : Nat → PageResp) (off : Nat) : Bool :=
  ((role_list_collect pages off).getD []).isEmpty

/-- Specification-side count of requests: one past the first stopping offset,
or all 25 offsets when no page stops the loop before the bound. -/
def stopCount (pages : Nat → PageResp) : Nat :=
  match pageOffsets.findIdx? (stopsAt pages) with
  | some k => k + 1
  | none => pageOffsets.length

theorem collectAux_snd_eq_take (pages : Nat → PageResp) (l : List Nat) :
    (collectAux pages l).2 =
      l.take (match l.findIdx? (stopsAt pages) with
              | some k => k + 1
              | none => l.length) := by
  induction l with
  | nil => rfl
  | cons off rest ih =>
    by_cases h : stopsAt pages off = true
    · simp only [collectAux]
      rw [List.findIdx?_cons, if_pos h]
      have h' : ((role_list_collect pages off).getD []).isEmpty = true := h
      simp [h']
    · simp only [collectAux]
      rw [List.findIdx?_cons, if_neg h]
      have h' : ¬ ((role_list_collect pages off).getD []).isEmpty = true := h
      rw [if_neg h']
      simp only [List.take_succ_cons, List.cons.injEq, true_and]
      rw [ih]
      cases hf : rest.findIdx? (stopsAt pages) <;> simp [hf]

theorem collectAux_fst_eq_join (pages : Nat → PageResp) (l : List Nat) :
    (collectAux pages l).1 =
      ((collectAux pages l).2.map
        (fun off => (role_list_collect pages off).getD [])).flatten := by
  induction l with
  | nil => rfl
  | cons off rest ih =>
    by_cases h : ((role_list_collect pages off).getD []).isEmpty = true
    · simp [collectAux, h]
    · simp [collectAux, h, ih]

/-- The inner worker of `drop_duplicates`: keep a row iff its `bulletFields`
value has not been seen in an earlier row. -/
def dedupAux (seen : List Nat) : List Listing → List Listing
  | [] => []
  | x :: xs =>
    if x.bulletFields ∈ seen then dedupAux seen xs
    else x :: dedupAux (x.bulletFields :: seen) xs

/-- `pd.json_normalize(collect_list_roles).drop_duplicates(['bulletFields'])`
(line 176): keep the first row for each `bulletFields` value, preserving the
order of the kept rows. -/
def drop_duplicates (l : List Listing) : List Listing := dedupAux [] l

theorem dedupAux_sublist (seen : List Nat) (l : List Listing) :
    List.Sublist (dedupAux seen l) l := by
  induction l generalizing seen with
  | nil => exact List.Sublist.refl []
  | cons x xs ih =>
    by_cases h : x.bulletFields ∈ seen
    · simpa [dedupAux, h] using List.Sublist.cons x (ih seen)
    · simpa [dedupAux, h] using List.Sublist.cons₂ x (ih (x.bulletFields :: seen))

theorem mem_dedupAux_not_seen (seen : List Nat) (l : List Listing) :
    ∀ x ∈ dedupAux seen l, x.bulletFields ∉ seen := by
  induction l generalizing seen with
  | nil => intro x hx; simp [dedupAux] at hx
  | cons y ys ih =>
    intro x hx
    by_cases h : y.bulletFields ∈ seen
    · exact ih seen x (by simpa [dedupAux, h] using hx)
    · rw [dedupAux, if_neg h] at hx
      rcases List.mem_cons.mp hx with rfl | hx'
      · exact h
      · intro hmem
        exact ih (y.bulletFields :: seen) x hx' (List.mem_cons_of_mem _ hmem)

theorem dedupAux_keys_nodup (seen : List Nat) (l : List Listing) :
    ((dedupAux seen l).map (·.bulletFields)).Nodup := by
  induction l generalizing seen with
  | nil => simp [dedupAux]
  | cons y ys ih =>
    by_cases h : y.bulletFields ∈ seen
    · simpa [dedupAux, h] using ih seen
    · rw [dedupAux, if_neg h]
      refine List.nodup_cons.mpr ⟨?_, ih (y.bulletFields :: seen)⟩
      intro hmem
      rcases List.mem_map.mp hmem with ⟨x, hx, hkx⟩
      exact mem_dedupAux_not_seen _ _ x hx (hkx ▸ List.mem_cons_self _ _)

theorem dedupAux_eq_self (seen : List Nat) (l : List Listing)
    (h1 : ∀ x ∈ l, x.bulletFields ∉ seen)
    (h2 : (l.map (·.bulletFields)).Nodup) :
    dedupAux seen l = l := by
  induction l generalizing seen with
  | nil => rfl
  | cons x xs ih =>
    rw [List.map_cons] at h2
    obtain ⟨hx, hxs⟩ := List.nodup_cons.mp h2
    rw [dedupAux, if_neg (h1 x (List.mem_cons_self _ _))]
    congr 1
    refine ih (x.bulletFields :: seen) ?_ hxs
    intro y hy
    intro hmem
    rcases List.mem_cons.mp hmem with heq | hseen
    · exact hx (heq ▸ List.mem_map_of_mem (·.bulletFields) hy)
    · exact h1 y (List.mem_cons_of_mem _ hy) hseen

theorem drop_duplicates_idem (l : List Listing) :
    drop_duplicates (drop_duplicates l) = drop_duplicates l :=
  dedupAux_eq_self [] _ (by simp) (dedupAux_keys_nodup [] l)

theorem dedupAux_filter_of_seen (seen : List Nat) (l : List Listing) (k : Nat)
    (hk : k ∈ seen) :
    (dedupAux seen l).filter (fun a => a.bulletFields = k) = [] := by
  rw [List.filter_eq_nil_iff]
  intro a ha
  have := mem_dedupAux_not_seen seen l a ha
  simp only [decide_eq_true_eq]
  intro heq
  exact this (heq ▸ hk)

theorem dedupAux_filter_take (seen : List Nat) (l : List Listing) (k : Nat)
    (hk : k ∉ seen) :
    (dedupAux seen l).filter (fun a => a.bulletFields = k) =
      (l.filter (fun a => a.bulletFields = k)).take 1 := by
  induction l generalizing seen with
  | nil => rfl
  | cons x xs ih =>
    by_cases h : x.bulletFields ∈ seen
    · rw [dedupAux, if_pos h]
      have hne : ¬ (x.bulletFields = k) := fun heq => hk (heq ▸ h)
      rw [List.filter_cons, if_neg (by simpa using hne)]
      exact ih seen hk
    · rw [dedupAux, if_neg h]
      by_cases hxk : x.bulletFields = k
      · rw [List.filter_cons, if_pos (by simpa using hxk),
            List.filter_cons, if_pos (by simpa using hxk)]
        simp only [List.take_succ_cons, List.take_zero]
        rw [dedupAux_filter_of_seen _ _ k (hxk ▸ List.mem_cons_self _ _)]
      · rw [List.filter_cons, if_neg (by simpa using hxk),
            List.filter_cons, if_neg (by simpa using hxk)]
        exact ih (x.bulletFields :: seen)
          (fun hmem => (List.mem_cons.mp hmem).elim (fun he => hxk he.symm) hk)

/-! ### Model of `extract_text_from_html` (lines 136-141)

`BeautifulSoup(html_string, 'html.parser').get_text(separator=' ', strip=True)`
is modelled on `List Char`: the parser splits the input into text nodes at
tags (`<` ... `>`), decodes character references inside text nodes (modelled
for the named entities `&amp;`, `&lt;`, `&gt;`, decoded in one left-to-right
pass exactly as `convert_charrefs` does), then `get_text` strips each text
node of surrounding whitespace and joins the non-empty ones with a single
space. -/

/-- The ASCII whitespace characters removed by Python's `str.strip()`. -/
def isSpaceChar (c : Char) : Bool :=
  c == ' ' || c == '\t' || c == '\n' || c == '\r' || c == '\x0b' || c == '\x0c'

/-- Tag/text tokenizer: outside a tag, characters accumulate into the current
text node (held reversed in `acc`) and `<` closes the node and enters a tag;
inside a tag, characters are discarded until `>`. -/
def tokenizeAux : Bool → List Char → List Char → List (List Char)
  | false, acc, [] => [acc.reverse]
  | false, acc, c :: rest =>
    if c = '<' then acc.reverse :: tokenizeAux true [] rest
    else tokenizeAux false (c :: acc) rest
  | true, _, [] => []
  | true, _, c :: rest =>
    if c = '>' then tokenizeAux false [] rest
    else tokenizeAux true [] rest

/-- The list of raw text nodes of an HTML fragment. -/
def tokenize (l : List Char) : List (List Char) := tokenizeAux false [] l

/-- One left-to-right decoding pass over a text node for the named character
references `&amp;`, `&lt;`, `&gt;`; an `&` that starts no such reference is
kept literally.  The replacement text is not rescanned. -/
def decodeEntities : List Char → List Char
  | [] => []
  | '&' :: 'a' :: 'm' :: 'p' :: ';' :: rest => '&' :: decodeEntities rest
  | '&' :: 'l' :: 't' :: ';' :: rest => '<' :: decodeEntities rest
  | '&' :: 'g' :: 't' :: ';' :: rest => '>' :: decodeEntities rest
  | c :: rest => c :: decodeEntities rest

/-- Python `str.strip()` on a character list: drop leading and trailing
whitespace. -/
def stripChars (l : List Char) : List Char :=
  ((l.dropWhile isSpaceChar).reverse.dropWhile isSpaceChar).reverse

/-- The stripped, decoded, non-empty text nodes of an HTML fragment. -/
def getTextNodes (l : List Char) : List (List Char) :=
  ((tokenize l).map (fun n => stripChars (decodeEntities n))).filter
    (fun n => !n.isEmpty)

/-- `soup.get_text(separator=' ', strip=True)`. -/
def get_text (l : List Char) : List Char :=
  List.intercalate [' '] (getTextNodes l)

/-- `extract_text_from_html` (lines 136-141): `None`/NaN and the empty string
return `""`; otherwise parse and extract the text. -/
def extract_text_from_html (html_string : Option String) : String :=
  match html_string with
  | none => ""
  | some s => if s = "" then "" else String.mk (get_text s.toList)

/-! ### Detail fetching, merge and the `scrape_jobs` pipeline (lines 143-212) -/

/-- A detail document returned by the per-path endpoint, flattened by
`pd.json_normalize`.  The two `jobPostingInfo.*` fields the claims are about
are modelled; `none` models a field absent from the document (a NaN cell).
The response of `role_details_fetch` (lines 143-156) is modelled as
`Option Detail`: `none` is the empty dict `{}`, which is both what the
`except` branch returns after logging and what a falsy response amounts to at
the `if result:` check in `scrape_jobs`. -/
structure Detail where
  title : Option String
  jobDescription : Option String
  deriving DecidableEq, Repr

/-- A detail record as appended to `collect_role_details` (lines 180-183): the
fetched document with the requesting path written into its `perma` field. -/
structure DetailRec where
  detail : Detail
  perma : Nat
  deriving DecidableEq, Repr

/-- Lines 178-183: iterate over `roles_df['externalPath']`; fetch each path;
keep the result only when it is truthy (a non-empty dict), with `perma` set to
the path. -/
def collectDetails (fetch : Nat → Option Detail) (roles : List Listing) :
    List DetailRec :=
  roles.filterMap (fun r => (fetch r.externalPath).map (fun d => ⟨d, r.externalPath⟩))

/-- Lines 187-188: when the `jobPostingInfo.jobDescription` column exists
(some collected record carries the field), `extract_text_from_html` is applied
to every cell of the column — a NaN cell becomes the empty string. -/
def stripDescriptions (details : List DetailRec) : List DetailRec :=
  if details.any (fun d => d.detail.jobDescription.isSome) then
    details.map (fun d =>
      ⟨⟨d.detail.title, some (extract_text_from_html d.detail.jobDescription)⟩,
       d.perma⟩)
  else details

/-- One row of `final_df` right after the merge of line 190. -/
structure MergedRow where
  listing : Listing
  detail : Option DetailRec
  deriving DecidableEq, Repr

/-- `pd.merge(roles_df, roledetails_df, left_on='externalPath',
right_on='perma', how='left')` (line 190): every left row is kept in order;
a left row with matching right rows produces one output row per match (in
right order), and a left row without a match produces a single row whose
right-hand fields are all NaN. -/
def mergeLeft (roles : List Listing) (details : List DetailRec) :
    List MergedRow :=
  roles.flatMap (fun r =>
    let ds := details.filter (fun d => d.perma = r.externalPath)
    if ds.isEmpty then [⟨r, none⟩] else ds.map (fun d => ⟨r, some d⟩))

/-- One row of the final table after column selection/renaming and the
insertion of the scraped date and time (lines 192-208).  A detail field that
is NaN in the row — because the matched record lacks it or because the row
had no detail match — and a `jobPostingInfo.*` column that is absent from the
frame altogether are both modelled as `none`. -/
structure FinalRow where
  scrapedDate : String
  scrapedTime : String
  title : Option String
  jobDescription : Option String
  deriving DecidableEq, Repr

/-- Project one merged row onto the output columns and stamp it. -/
def projectRow (date ts : String) (m : MergedRow) : FinalRow :=
  ⟨date, ts,
   m.detail.bind (fun d => d.detail.title),
   m.detail.bind (fun d => d.detail.jobDescription)⟩

/-- The outcome of `scrape_jobs`: either a raised exception propagating to the
caller, or a returned value (`none` models Python's `None`). -/
inductive ScrapeResult where
  | raised : String → ScrapeResult
  | returned : Option (List FinalRow) → ScrapeResult
  deriving DecidableEq, Repr

/-- `roles_df` (line 176): the deduplicated listing frame of a run. -/
def rolesOf (pages : Nat → PageResp) : List Listing :=
  drop_duplicates (collectItems pages)

/-- `collect_role_details` (lines 178-183) of a run. -/
def collectedDetailsOf (pages : Nat → PageResp) (fetch : Nat → Option Detail) :
    List DetailRec :=
  collectDetails fetch (rolesOf pages)

/-- `roledetails_df` after the description strip (lines 185-188) of a run. -/
def detailsOf (pages : Nat → PageResp) (fetch : Nat → Option Detail) :
    List DetailRec :=
  stripDescriptions (collectedDetailsOf pages fetch)

/-- `final_df` right after the merge (line 190) of a run. -/
def mergedOf (pages : Nat → PageResp) (fetch : Nat → Option Detail) :
    List MergedRow :=
  mergeLeft (rolesOf pages) (detailsOf pages fetch)

/-- `scrape_jobs` (lines 158-212).  When every detail fetch failed,
`collect_role_details` is empty, so `pd.json_normalize` builds a frame with no
columns and `pd.merge(..., right_on='perma', ...)` raises a `KeyError` on the
missing `perma` column; this is the one exception the pipeline itself can
raise, and it is modelled by `.raised`. -/
def scrape_jobs (pages : Nat → PageResp) (fetch : Nat → Option Detail)
    (date ts : String) : ScrapeResult :=
  if (collectItems pages).isEmpty then .returned none
  else if (collectedDetailsOf pages fetch).isEmpty then .raised "KeyError: 'perma'"
  else .returned (some ((mergedOf pages fetch).map (projectRow date ts)))

/-! ### Run history, export and `main` (lines 69-92, 263-295, 301-348) -/

/-- One run-history entry (lines 73-79). -/
structure HistoryEntry where
  timestamp : String
  date : String
  status : String
  records_scraped : Nat
  error : Option String
  deriving DecidableEq, Repr

/-- `save_run_history` (lines 69-92): read the prior entries, append one entry
built from the arguments, and rewrite the file.  `prior = none` models both a
missing history file and a file whose contents `json.load` fails to parse —
the bare `except` turns either into the empty list. -/
def save_run_history (ts date : String) (prior : Option (List HistoryEntry))
    (status : String) (records_count : Nat) (error : Option String) :
    List HistoryEntry :=
  (prior.getD []) ++ [⟨ts, date, status, records_count, error⟩]

/-- The `EXPORT_CONFIG` flags (lines 30-34). -/
def EXPORT_CONFIG_save_excel : Bool := true

def EXPORT_CONFIG_save_csv : Bool := true

def EXPORT_CONFIG_save_json : Bool := true

/-- `export_data` (lines 263-295): the list of files written, one per enabled
format, named with the collection date. -/
def export_data (df : List FinalRow) (date_only : String) : List String :=
  (if EXPORT_CONFIG_save_excel then
    ["output/GuardianLife_Jobs_" ++ date_only ++ ".xlsx"] else []) ++
  (if EXPORT_CONFIG_save_csv then
    ["output/GuardianLife_Jobs_" ++ date_only ++ ".csv"] else []) ++
  (if EXPORT_CONFIG_save_json then
    ["output/GuardianLife_Jobs_" ++ date_only ++ ".json"] else [])

/-- The outcome of the `try` block of `main` (lines 312-342) seen from its
`except` handler: the body either raised, found no data, or completed with a
row list and the files it exported. -/
inductive BodyResult where
  | thrown : String → BodyResult
  | noData : BodyResult
  | done : List FinalRow → List String → BodyResult
  deriving DecidableEq, Repr

/-- The `try` body of `main`: run `scrape_jobs`; a `None` or empty frame is
the no-data outcome (lines 315-319); otherwise export (line 321). -/
def tryBody (pages : Nat → PageResp) (fetch : Nat → Option Detail)
    (date ts : String) : BodyResult :=
  match scrape_jobs pages fetch date ts with
  | .raised e => .thrown e
  | .returned none => .noData
  | .returned (some rows) =>
    if rows.length = 0 then .noData else .done rows (export_data rows date)

/-- The observable outcome of one `main` invocation: the rewritten history
file, the files exported, the exception re-raised (if any), and the returned
data frame (if any). -/
structure MainOut where
  history : List HistoryEntry
  exported_files : List String
  reraised : Option String
  returned_df : Option (List FinalRow)
  deriving DecidableEq, Repr

/-- The terminal dispatch of `main` (lines 312-348): no data writes one
`no_data` entry and exports nothing (lines 315-319); success writes one
`success` entry carrying the row count (line 331); an exception writes one
`error` entry carrying the error text and is re-raised (lines 344-348). -/
def mainCore (ts date : String) (prior : Option (List HistoryEntry)) :
    BodyResult → MainOut
  | .thrown e => ⟨save_run_history ts date prior "error" 0 (some e), [], some e, none⟩
  | .noData => ⟨save_run_history ts date prior "no_data" 0 none, [], none, none⟩
  | .done rows files =>
    ⟨save_run_history ts date prior "success" rows.length none, files, none, some rows⟩

/-- `main` (lines 301-348) over explicit page and detail responses. -/
def mainRun (ts date : String) (prior : Option (List HistoryEntry))
    (pages : Nat → PageResp) (fetch : Nat → Option Detail) : MainOut :=
  mainCore ts date prior (tryBody pages fetch date ts)

/-! ### Concrete response functions used by witnesses and counterexamples -/

/-- The end-to-end scenario of the spec: the page at offset 0 returns 20
items, every later page returns 0 items. -/
def twoPagesScenario : Nat → PageResp := fun off =>
  if off = 0 then .ok (some ((List.range 20).map (fun i => ⟨i, i⟩)))
  else .ok (some [])

/-- A run in which the request at offset 0 fails while every later page would
return one item. -/
def failingFirstPage : Nat → PageResp := fun off =>
  if off = 0 then .fail else .ok (some [⟨500, 500⟩])

/-- A helper fact: deduplication returns the empty list only on the empty
list, so "zero items after deduplication" and the `if not collect_list_roles`
check of line 172 coincide. -/
theorem drop_duplicates_eq_nil_iff (l : List Listing) :
    drop_duplicates l = [] ↔ l = [] := by
  cases l with
  | nil => simp [drop_duplicates, dedupAux]
  | cons x xs => simp [drop_duplicates, dedupAux]

/-- **C3**: for every sequence of page responses the collector requests
exactly the offsets up to and including the first one whose (error-recovered)
response has a falsy `jobPostings`, or all offsets `0, 20, ..., 480` when no
such page occurs; and in the two-page scenario (20 items, then 0) it issues
exactly the two requests at offsets 0 and 20 and retains 20
pre-deduplication items. -/
theorem collector_stops_at_first_empty_page_or_bound :
    (∀ pages : Nat → PageResp,
        collectOffsets pages = pageOffsets.take (stopCount pages)) ∧
    collectOffsets twoPagesScenario = [0, 20] ∧
    (collectItems twoPagesScenario).length = 20 := by
  refine ⟨fun pages => collectAux_snd_eq_take pages pageOffsets, ?_, ?_⟩ <;> decide

/-- **C1, counterexample**: when the page at offset 0 fails while every later
page would return an item, the collector issues only the one request at
offset 0 — it never requests offset 20 and accumulates nothing, refuting the
claim that the loop continues past an isolated failure. -/
theorem collector_failure_cex :
    failingFirstPage 0 = PageResp.fail ∧
    failingFirstPage 20 = PageResp.ok (some [⟨500, 500⟩]) ∧
    collectOffsets failingFirstPage = [0] ∧
    ¬ (20 ∈ collectOffsets failingFirstPage) ∧
    collectItems failingFirstPage = [] := by decide

/-- **C1, amended**: a network/parse failure at a page is caught and recovered
into the response `{'jobPostings': []}` — an empty page — but since an empty
page terminates the loop, the collector stops at the failing offset: it
requests exactly the offsets up to and including the failing one and retains
exactly the items of the pages before it (the failed page contributing an
empty page's worth of items), issuing no request past the failure. -/
theorem collector_failure_stops_loop (pages : Nat → PageResp) (k : Nat)
    (hk : k < 25) (hfail : pages (k * 20) = PageResp.fail)
    (hbefore : ∀ j, j < k → stopsAt pages (j * 20) = false) :
    role_list_collect pages (k * 20) = some [] ∧
    collectOffsets pages = (List.range (k + 1)).map (· * 20) ∧
    collectItems pages =
      (((List.range (k + 1)).map (· * 20)).map
        (fun off => (role_list_collect pages off).getD [])).flatten := by
  have h1 : role_list_collect pages (k * 20) = some [] := by
    unfold role_list_collect; rw [hfail]
  have hstop : stopsAt pages (k * 20) = true := by
    unfold stopsAt; rw [h1]; rfl
  have hfind : pageOffsets.findIdx? (stopsAt pages) = some k := by
    unfold pageOffsets
    rw [List.findIdx?_map, List.findIdx?_eq_some_iff_getElem]
    refine ⟨by simpa using hk, ?_, ?_⟩
    · simpa [Function.comp] using hstop
    · intro j hj
      have := hbefore j hj
      simp only [Function.comp, List.getElem_range]
      simp [this]
  have heq : collectOffsets pages = pageOffsets.take (stopCount pages) :=
    collectAux_snd_eq_take pages pageOffsets
  have hcount : stopCount pages = k + 1 := by unfold stopCount; rw [hfind]
  have hoff : collectOffsets pages = (List.range (k + 1)).map (· * 20) := by
    rw [heq, hcount]
    unfold pageOffsets
    rw [← List.map_take, List.take_range, Nat.min_eq_left (by omega)]
  refine ⟨h1, hoff, ?_⟩
  rw [show collectItems pages =
        ((collectOffsets pages).map
          (fun off => (role_list_collect pages off).getD [])).flatten from
      collectAux_fst_eq_join pages pageOffsets, hoff]

/-- Witness for **C1 (amended)** at the run whose very first page request
fails: the collector requests offset 0 only. -/
theorem collector_failure_stops_loop_witness :
    role_list_collect failingFirstPage (0 * 20) = some [] ∧
    collectOffsets failingFirstPage = (List.range (0 + 1)).map (· * 20) ∧
    collectItems failingFirstPage =
      (((List.range (0 + 1)).map (· * 20)).map
        (fun off => (role_list_collect failingFirstPage off).getD [])).flatten :=
  collector_failure_stops_loop failingFirstPage 0 (by decide) (by decide)
    (fun j hj => absurd hj (by omega))

/-- **C6**: deduplication by the `bulletFields` content field keeps, for each
content value, exactly the first row carrying it (`filter`/`take 1`
characterization), keeps the remaining rows in their original relative order
(the result is a sublist of the input), and is idempotent. -/
theorem drop_duplicates_first_occurrence_and_idempotent :
    (∀ (l : List Listing) (k : Nat),
        (drop_duplicates l).filter (fun a => a.bulletFields = k) =
          (l.filter (fun a => a.bulletFields = k)).take 1) ∧
    (∀ l : List Listing, List.Sublist (drop_duplicates l) l) ∧
    (∀ l : List Listing,
        drop_duplicates (drop_duplicates l) = drop_duplicates l) :=
  ⟨fun l k => dedupAux_filter_take [] l k (by simp),
   fun l => dedupAux_sublist [] l,
   drop_duplicates_idem⟩

/-- **C9**: saving a run-history entry over a parseable prior log appends
exactly one entry at the end and leaves the prior entries unchanged and in
order; a malformed (unparseable) or missing prior log is treated as the empty
sequence. -/
theorem run_history_append_only :
    (∀ (ts date status : String) (h : List HistoryEntry) (n : Nat)
        (err : Option String),
        save_run_history ts date (some h) status n err =
          h ++ [⟨ts, date, status, n, err⟩] ∧
        (save_run_history ts date (some h) status n err).take h.length = h ∧
        (save_run_history ts date (some h) status n err).length =
          h.length + 1) ∧
    (∀ (ts date status : String) (n : Nat) (err : Option String),
        save_run_history ts date none status n err =
          [⟨ts, date, status, n, err⟩]) := by
  constructor
  · intro ts date status h n err
    refine ⟨rfl, ?_, by simp [save_run_history]⟩
    simp [save_run_history]
  · intro ts date status n err
    rfl

/-- **C8**: an exception thrown by the pipeline body is recorded as exactly
one run-history entry with status `"error"` carrying the error text, no file
is exported, and the exception is re-raised to the caller; moreover, every
terminal state of `main` appends exactly one run-history entry. -/
theorem main_error_recorded_and_reraised :
    (∀ (ts date : String) (prior : List HistoryEntry) (e : String),
        mainCore ts date (some prior) (.thrown e) =
          ⟨prior ++ [⟨ts, date, "error", 0, some e⟩], [], some e, none⟩) ∧
    (∀ (ts date : String) (prior : Option (List HistoryEntry))
        (b : BodyResult),
        (mainCore ts date prior b).history.length = (prior.getD []).length + 1) := by
  constructor
  · intro ts date prior e
    rfl
  · intro ts date prior b
    cases b <;> simp [mainCore, save_run_history]

/-- **C7**: when listing collection yields zero items after deduplication,
`main` appends exactly one run-history entry, with status `"no_data"`, exports
no file, re-raises nothing, and returns `None`. -/
theorem no_data_entry_and_no_export (ts date : String)
    (prior : Option (List HistoryEntry)) (pages : Nat → PageResp)
    (fetch : Nat → Option Detail)
    (h : drop_duplicates (collectItems pages) = []) :
    mainRun ts date prior pages fetch =
      ⟨(prior.getD []) ++ [⟨ts, date, "no_data", 0, none⟩], [], none, none⟩ := by
  have hnil : collectItems pages = [] := (drop_duplicates_eq_nil_iff _).mp h
  unfold mainRun tryBody scrape_jobs
  rw [hnil]
  simp [mainCore, save_run_history]

/-- Witness for **C7** at a run whose every page is empty. -/
theorem no_data_entry_and_no_export_witness :
    drop_duplicates (collectItems (fun _ => PageResp.ok (some []))) = [] ∧
    mainRun "t" "d" (some []) (fun _ => PageResp.ok (some []))
        (fun _ => none) =
      ⟨[⟨"t", "d", "no_data", 0, none⟩], [], none, none⟩ :=
  ⟨by decide,
   no_data_entry_and_no_export "t" "d" (some [])
     (fun _ => PageResp.ok (some [])) (fun _ => none) (by decide)⟩

/-! ### Lemmas about the detail table and the left join -/

theorem collectDetails_perma_sublist (fetch : Nat → Option Detail)
    (roles : List Listing) :
    List.Sublist ((collectDetails fetch roles).map (·.perma))
      (roles.map (·.externalPath)) := by
  induction roles with
  | nil => simp [collectDetails]
  | cons r rest ih =>
    simp only [collectDetails, List.filterMap_cons, List.map_cons]
    cases hf : fetch r.externalPath with
    | none =>
      simp only [Option.map_none']
      exact List.Sublist.cons _ (by simpa [collectDetails] using ih)
    | some d =>
      simp only [Option.map_some']
      rw [List.map_cons]
      exact List.Sublist.cons₂ _ (by simpa [collectDetails] using ih)

theorem stripDescriptions_perma (details : List DetailRec) :
    (stripDescriptions details).map (·.perma) = details.map (·.perma) := by
  unfold stripDescriptions
  split
  · rw [List.map_map]; rfl
  · rfl

theorem mem_collectDetails_perma (fetch : Nat → Option Detail)
    (roles : List Listing) (p : Nat) :
    p ∈ (collectDetails fetch roles).map (·.perma) ↔
      (∃ r ∈ roles, r.externalPath = p) ∧ (fetch p).isSome = true := by
  rw [List.mem_map]
  constructor
  · rintro ⟨dr, hdr, rfl⟩
    rw [collectDetails, List.mem_filterMap] at hdr
    obtain ⟨r, hr, hfr⟩ := hdr
    cases hf : fetch r.externalPath with
    | none => rw [hf] at hfr; simp at hfr
    | some d =>
      rw [hf] at hfr
      simp only [Option.map_some', Option.some.injEq] at hfr
      subst hfr
      exact ⟨⟨r, hr, rfl⟩, by simp [hf]⟩
  · rintro ⟨⟨r, hr, rfl⟩, hsome⟩
    obtain ⟨d, hd⟩ := Option.isSome_iff_exists.mp hsome
    refine ⟨⟨d, r.externalPath⟩, ?_, rfl⟩
    rw [collectDetails, List.mem_filterMap]
    exact ⟨r, hr, by rw [hd]; rfl⟩

theorem filter_perma_eq_find (details : List DetailRec)
    (hnd : (details.map (·.perma)).Nodup) (p : Nat) :
    details.filter (fun d => d.perma = p) =
      (details.find? (fun d => d.perma = p)).toList := by
  induction details with
  | nil => rfl
  | cons d ds ih =>
    rw [List.map_cons] at hnd
    obtain ⟨hd, hds⟩ := List.nodup_cons.mp hnd
    by_cases hp : d.perma = p
    · rw [List.filter_cons, if_pos (by simpa using hp),
        List.find?_cons_of_pos _ (by simpa using hp)]
      have hnil : ds.filter (fun dd => dd.perma = p) = [] := by
        rw [List.filter_eq_nil_iff]
        intro a ha
        simp only [decide_eq_true_eq]
        intro heq
        exact hd (by rw [hp, ← heq]; exact List.mem_map_of_mem _ ha)
      simp [hnil]
    · rw [List.filter_cons, if_neg (by simpa using hp),
        List.find?_cons_of_neg _ (by simpa using hp)]
      exact ih hds

theorem mergeLeft_eq_map_find (roles : List Listing) (details : List DetailRec)
    (hnd : (details.map (·.perma)).Nodup) :
    mergeLeft roles details =
      roles.map
        (fun r => ⟨r, details.find? (fun d => d.perma = r.externalPath)⟩) := by
  induction roles with
  | nil => rfl
  | cons r rest ih =>
    rw [mergeLeft, List.flatMap_cons, List.map_cons]
    rw [mergeLeft] at ih
    rw [ih]
    have hf := filter_perma_eq_find details hnd r.externalPath
    cases hfind : details.find? (fun d => d.perma = r.externalPath) with
    | none =>
      rw [hfind] at hf
      simp only [Option.toList_none] at hf
      simp [hf]
    | some d =>
      rw [hfind] at hf
      simp only [Option.toList_some] at hf
      simp [hf]

theorem mem_mergeLeft_listing (roles : List Listing) (details : List DetailRec)
    (m : MergedRow) (hm : m ∈ mergeLeft roles details) : m.listing ∈ roles := by
  rw [mergeLeft, List.mem_flatMap] at hm
  obtain ⟨r, hr, hmr⟩ := hm
  dsimp only at hmr
  by_cases he : (details.filter (fun d => d.perma = r.externalPath)).isEmpty
  · rw [if_pos he] at hmr
    rw [List.mem_singleton] at hmr
    rw [hmr]
    exact hr
  · rw [if_neg he, List.mem_map] at hmr
    obtain ⟨d, _, hdm⟩ := hmr
    rw [← hdm]
    exact hr

theorem mergeLeft_detail_none_iff (roles : List Listing)
    (details : List DetailRec) (m : MergedRow)
    (hm : m ∈ mergeLeft roles details) :
    m.detail = none ↔ ∀ d ∈ details, ¬ d.perma = m.listing.externalPath := by
  rw [mergeLeft, List.mem_flatMap] at hm
  obtain ⟨r, hr, hmr⟩ := hm
  dsimp only at hmr
  by_cases he : (details.filter (fun d => d.perma = r.externalPath)).isEmpty
  · rw [if_pos he, List.mem_singleton] at hmr
    subst hmr
    constructor
    · intro _ d hd
      have hfe : details.filter (fun d => d.perma = r.externalPath) = [] := by
        rwa [List.isEmpty_iff] at he
      have hnp := List.filter_eq_nil_iff.mp hfe d hd
      simpa using hnp
    · intro _
      rfl
  · rw [if_neg he, List.mem_map] at hmr
    obtain ⟨d, hd, hdm⟩ := hmr
    subst hdm
    obtain ⟨hdd, hdp⟩ := List.mem_filter.mp hd
    constructor
    · intro hcontra
      exact absurd hcontra (by simp)
    · intro hall
      exact absurd (by simpa using hdp) (hall d hdd)

theorem length_filter_eq_one_of_nodup {p : Nat} {l : List Nat}
    (hnd : l.Nodup) (hp : p ∈ l) :
    (l.filter (fun x => x = p)).length = 1 := by
  induction l with
  | nil => simp at hp
  | cons a l ih =>
    obtain ⟨ha, hl⟩ := List.nodup_cons.mp hnd
    rcases List.mem_cons.mp hp with rfl | hp'
    · rw [List.filter_cons, if_pos (by simp)]
      have hnil : l.filter (fun x => x = p) = [] := by
        rw [List.filter_eq_nil_iff]
        intro x hx
        simp only [decide_eq_true_eq]
        rintro rfl
        exact ha hx
      simp [hnil]
    · have hne : ¬ (a = p) := fun h => ha (h ▸ hp')
      rw [List.filter_cons, if_neg (by simpa using hne)]
      exact ih hl hp'

theorem detailsOf_perma_nodup (pages : Nat → PageResp)
    (fetch : Nat → Option Detail)
    (hnd : ((rolesOf pages).map (·.externalPath)).Nodup) :
    ((detailsOf pages fetch).map (·.perma)).Nodup := by
  rw [detailsOf, stripDescriptions_perma]
  exact List.Nodup.sublist (collectDetails_perma_sublist fetch (rolesOf pages)) hnd

theorem mem_detailsOf_perma (pages : Nat → PageResp)
    (fetch : Nat → Option Detail) (p : Nat) :
    p ∈ (detailsOf pages fetch).map (·.perma) ↔
      (∃ r ∈ rolesOf pages, r.externalPath = p) ∧ (fetch p).isSome = true := by
  rw [detailsOf, stripDescriptions_perma]
  exact mem_collectDetails_perma fetch (rolesOf pages) p

/-- A single listing page carrying two listings with distinct `bulletFields`
but the same `externalPath` 7. -/
def pagesDupPath : Nat → PageResp := fun off =>
  if off = 0 then .ok (some [⟨0, 7⟩, ⟨1, 7⟩]) else .ok (some [])

/-- A detail endpoint that succeeds on every path. -/
def fetchAlways : Nat → Option Detail := fun _ => some ⟨some "T", none⟩

/-- **C2, counterexample**: two listings with distinct content fields may
share one path; both survive deduplication (which is by `bulletFields`, not
by path), the path is fetched once per surviving row, and the left join then
matches each of the 2 listing rows against each of the 2 retained detail
rows — the path appears in 4 merged rows, not exactly 1. -/
theorem merge_left_join_cex :
    (rolesOf pagesDupPath).map (·.externalPath) = [7, 7] ∧
    ((mergedOf pagesDupPath fetchAlways).filter
      (fun m => m.listing.externalPath = 7)).length = 4 := by decide

/-- **C2, amended**: provided the paths of the deduplicated listing set are
pairwise distinct, the merge is a left join on the path key: every such path
appears in exactly one merged row, whether or not a matching detail record
exists.  Unconditionally — for every run, duplicate paths included — every
merged row's path comes from the deduplicated listing set, and a merged row's
detail fields are absent exactly when its path's detail fetch failed (no
detail record was retained for it). -/
theorem merge_left_join (pages : Nat → PageResp) (fetch : Nat → Option Detail) :
    (((rolesOf pages).map (·.externalPath)).Nodup →
      ∀ p ∈ (rolesOf pages).map (·.externalPath),
        ((mergedOf pages fetch).filter
          (fun m => m.listing.externalPath = p)).length = 1) ∧
    (∀ m ∈ mergedOf pages fetch,
        m.listing.externalPath ∈ (rolesOf pages).map (·.externalPath)) ∧
    (∀ m ∈ mergedOf pages fetch,
        (m.detail = none ↔ fetch m.listing.externalPath = none)) := by
  refine ⟨?_, ?_, ?_⟩
  · intro hnd p hp
    have hndd := detailsOf_perma_nodup pages fetch hnd
    have hmap := mergeLeft_eq_map_find (rolesOf pages) (detailsOf pages fetch) hndd
    rw [mergedOf, hmap, List.filter_map, List.length_map]
    have hlen : ((rolesOf pages).filter
        (fun r => r.externalPath = p)).length = 1 := by
      have h1 := length_filter_eq_one_of_nodup hnd hp
      rw [List.filter_map, List.length_map] at h1
      exact h1
    exact hlen
  · intro m hm
    exact List.mem_map_of_mem _
      (mem_mergeLeft_listing (rolesOf pages) (detailsOf pages fetch) m hm)
  · intro m hm
    rw [mergeLeft_detail_none_iff (rolesOf pages) (detailsOf pages fetch) m hm]
    have hlst : m.listing ∈ rolesOf pages :=
      mem_mergeLeft_listing (rolesOf pages) (detailsOf pages fetch) m hm
    constructor
    · intro hall
      cases hfe : fetch m.listing.externalPath with
      | none => rfl
      | some d =>
        exfalso
        have hmem : m.listing.externalPath ∈
            (detailsOf pages fetch).map (·.perma) := by
          rw [mem_detailsOf_perma]
          exact ⟨⟨m.listing, hlst, rfl⟩, by simp [hfe]⟩
        rw [List.mem_map] at hmem
        obtain ⟨dr, hdr, hperma⟩ := hmem
        exact hall dr hdr hperma
    · intro hnone d hd heq
      have hmem : d.perma ∈ (detailsOf pages fetch).map (·.perma) :=
        List.mem_map_of_mem _ hd
      rw [mem_detailsOf_perma, heq, hnone] at hmem
      simp at hmem

/-- A single listing page with two listings at distinct paths 10 and 20. -/
def pagesTwoJobs : Nat → PageResp := fun off =>
  if off = 0 then .ok (some [⟨0, 10⟩, ⟨1, 20⟩]) else .ok (some [])

/-- A detail endpoint that succeeds only on path 10. -/
def fetchOnlyTen : Nat → Option Detail := fun q =>
  if q = 10 then some ⟨some "T", some "<b>D</b>"⟩ else none

/-- Witness for **C2 (amended)** on a run with two distinct paths, one with a
matching detail record and one without. -/
theorem merge_left_join_witness :
    (10 ∈ (rolesOf pagesTwoJobs).map (·.externalPath)) ∧
    ((mergedOf pagesTwoJobs fetchOnlyTen).filter
      (fun m => m.listing.externalPath = 10)).length = 1 :=
  ⟨by decide,
   (merge_left_join pagesTwoJobs fetchOnlyTen).1 (by decide) 10 (by decide)⟩

/-- A detail endpoint that succeeds only on path 20. -/
def fetchOnlyTwenty : Nat → Option Detail := fun q =>
  if q = 20 then some ⟨some "T", none⟩ else none

/-- **C4**: when the detail fetch fails for a path `p` of the deduplicated
listing set (paths pairwise distinct) while it succeeds for some other path,
a merged row for `p` is still produced with no detail record, its output row
carries only the date/time stamps with every detail field absent, and the run
reaches the success terminal state: one `"success"` history entry and no
re-raised exception. -/
theorem detail_failure_row_preserved (ts date : String)
    (prior : Option (List HistoryEntry)) (pages : Nat → PageResp)
    (fetch : Nat → Option Detail) (p : Nat)
    (hnd : ((rolesOf pages).map (·.externalPath)).Nodup)
    (hp : p ∈ (rolesOf pages).map (·.externalPath))
    (hfail : fetch p = none)
    (hq : ∃ q ∈ (rolesOf pages).map (·.externalPath),
        q ≠ p ∧ (fetch q).isSome = true) :
    (∃ m ∈ mergedOf pages fetch,
        m.listing.externalPath = p ∧ m.detail = none ∧
        projectRow date ts m = ⟨date, ts, none, none⟩) ∧
    scrape_jobs pages fetch date ts =
      .returned (some ((mergedOf pages fetch).map (projectRow date ts))) ∧
    (mainRun ts date prior pages fetch).history =
      (prior.getD []) ++
        [⟨ts, date, "success",
          ((mergedOf pages fetch).map (projectRow date ts)).length, none⟩] ∧
    (mainRun ts date prior pages fetch).reraised = none := by
  have hndd := detailsOf_perma_nodup pages fetch hnd
  have hmap := mergeLeft_eq_map_find (rolesOf pages) (detailsOf pages fetch) hndd
  obtain ⟨q, hqmem, hqp, hqs⟩ := hq
  obtain ⟨r, hr, hrp⟩ := List.mem_map.mp hp
  have hroles_ne : rolesOf pages ≠ [] := by
    intro h
    rw [h] at hr
    exact absurd hr (List.not_mem_nil r)
  have hitems : ¬ (collectItems pages).isEmpty = true := by
    intro h
    rw [List.isEmpty_iff] at h
    exact hroles_ne (by rw [rolesOf, h]; rfl)
  have hcd_ne : ¬ (collectedDetailsOf pages fetch).isEmpty = true := by
    intro h
    rw [List.isEmpty_iff] at h
    have hmem : q ∈ (detailsOf pages fetch).map (·.perma) := by
      rw [mem_detailsOf_perma]
      exact ⟨List.mem_map.mp hqmem, hqs⟩
    rw [detailsOf, h] at hmem
    simp [stripDescriptions] at hmem
  have hfind_p : (detailsOf pages fetch).find? (fun d => d.perma = p) = none := by
    rw [List.find?_eq_none]
    intro d hd
    simp only [decide_eq_true_eq]
    intro heq
    have hmem : d.perma ∈ (detailsOf pages fetch).map (·.perma) :=
      List.mem_map_of_mem _ hd
    rw [mem_detailsOf_perma, heq, hfail] at hmem
    simp at hmem
  have hm_mem : (⟨r, none⟩ : MergedRow) ∈ mergedOf pages fetch := by
    rw [mergedOf, hmap]
    refine List.mem_map.mpr ⟨r, hr, ?_⟩
    rw [hrp, hfind_p]
  have hsc : scrape_jobs pages fetch date ts =
      .returned (some ((mergedOf pages fetch).map (projectRow date ts))) := by
    unfold scrape_jobs
    rw [if_neg hitems, if_neg hcd_ne]
  have hlen : ¬ ((mergedOf pages fetch).map (projectRow date ts)).length = 0 := by
    rw [List.length_map, mergedOf, hmap, List.length_map]
    intro h
    exact hroles_ne (List.length_eq_zero.mp h)
  refine ⟨⟨⟨r, none⟩, hm_mem, hrp, rfl, rfl⟩, hsc, ?_, ?_⟩
  · rw [mainRun, tryBody, hsc]
    dsimp only
    rw [if_neg hlen]
    rfl
  · rw [mainRun, tryBody, hsc]
    dsimp only
    rw [if_neg hlen]
    rfl

/-- Witness for **C4** on a run with paths 10 and 20 where only the fetch of
path 20 succeeds: both paths still yield an output row and the run records
success. -/
theorem detail_failure_row_preserved_witness :
    fetchOnlyTwenty 10 = none ∧
    (mainRun "t" "d" (some []) pagesTwoJobs fetchOnlyTwenty).history =
      [⟨"t", "d", "success", 2, none⟩] ∧
    (mainRun "t" "d" (some []) pagesTwoJobs fetchOnlyTwenty).reraised = none := by
  have h := detail_failure_row_preserved "t" "d" (some []) pagesTwoJobs
    fetchOnlyTwenty 10 (by decide) (by decide) (by decide)
    ⟨20, by decide, by decide, by decide⟩
  refine ⟨rfl, ?_, h.2.2.2⟩
  rw [h.2.2.1]
  decide

/-- **C10**: when the detail fetch fails for every path of a non-empty
deduplicated listing set, no detail record is retained at all
(`collect_role_details` is empty), the merge raises the `KeyError` on the
missing `perma` column, and the run terminates in the error state: one
`"error"` history entry carrying the error text, the exception re-raised, no
file exported and no data frame returned. -/
theorem all_detail_failures_error (ts date : String)
    (prior : Option (List HistoryEntry)) (pages : Nat → PageResp)
    (fetch : Nat → Option Detail)
    (hne : ¬ (collectItems pages).isEmpty = true)
    (hfail : ∀ q ∈ (rolesOf pages).map (·.externalPath), fetch q = none) :
    collectedDetailsOf pages fetch = [] ∧
    scrape_jobs pages fetch date ts = .raised "KeyError: 'perma'" ∧
    mainRun ts date prior pages fetch =
      ⟨(prior.getD []) ++ [⟨ts, date, "error", 0, some "KeyError: 'perma'"⟩],
       [], some "KeyError: 'perma'", none⟩ := by
  have hcd : collectedDetailsOf pages fetch = [] := by
    rw [collectedDetailsOf, collectDetails, List.filterMap_eq_nil_iff]
    intro r hr
    rw [hfail r.externalPath (List.mem_map_of_mem _ hr)]
    rfl
  have hsc : scrape_jobs pages fetch date ts = .raised "KeyError: 'perma'" := by
    unfold scrape_jobs
    rw [if_neg hne, hcd]
    simp
  refine ⟨hcd, hsc, ?_⟩
  rw [mainRun, tryBody, hsc]
  rfl

/-- Witness for **C10** on a run with two listed paths whose detail fetches
both fail. -/
theorem all_detail_failures_error_witness :
    mainRun "t" "d" (some []) pagesTwoJobs (fun _ => none) =
      ⟨[⟨"t", "d", "error", 0, some "KeyError: 'perma'"⟩], [],
       some "KeyError: 'perma'", none⟩ := by
  have h := all_detail_failures_error "t" "d" (some []) pagesTwoJobs
    (fun _ => none) (by decide) (fun q _ => rfl)
  exact h.2.2

/-! ### Lemmas about the HTML text extraction -/

theorem dropWhile_dropWhile_eq {α : Type} (p : α → Bool) (l : List α) :
    (l.dropWhile p).dropWhile p = l.dropWhile p := by
  induction l with
  | nil => rfl
  | cons x xs ih =>
    by_cases hp : p x
    · rw [List.dropWhile_cons_of_pos hp]; exact ih
    · rw [List.dropWhile_cons_of_neg hp, List.dropWhile_cons_of_neg hp]

theorem head?_dropWhile_false {α : Type} (p : α → Bool) (l : List α) (c : α)
    (h : (l.dropWhile p).head? = some c) : p c = false := by
  induction l with
  | nil => simp at h
  | cons x xs ih =>
    by_cases hp : p x
    · rw [List.dropWhile_cons_of_pos hp] at h; exact ih h
    · rw [List.dropWhile_cons_of_neg hp, List.head?_cons, Option.some.injEq] at h
      rw [← h]
      exact Bool.eq_false_iff.mpr hp

theorem dropWhile_eq_self_of_head? {α : Type} (p : α → Bool) (l : List α)
    (h : ∀ c, l.head? = some c → p c = false) : l.dropWhile p = l := by
  cases l with
  | nil => rfl
  | cons x xs =>
    have hx := h x rfl
    rw [List.dropWhile_cons_of_neg (by simp [hx])]

theorem stripChars_dropWhile (l : List Char) :
    (stripChars l).dropWhile isSpaceChar = stripChars l := by
  apply dropWhile_eq_self_of_head?
  intro c hc
  rw [stripChars, List.head?_reverse] at hc
  have hBne : (l.dropWhile isSpaceChar).reverse.dropWhile isSpaceChar ≠ [] := by
    intro hn
    rw [hn] at hc
    simp at hc
  obtain ⟨t, ht⟩ :=
    List.dropWhile_suffix (l := (l.dropWhile isSpaceChar).reverse) isSpaceChar
  have hlast : (l.dropWhile isSpaceChar).reverse.getLast? = some c := by
    rw [← ht, List.getLast?_append_of_ne_nil t hBne]
    exact hc
  rw [List.getLast?_reverse] at hlast
  exact head?_dropWhile_false isSpaceChar l c hlast

theorem stripChars_idem (l : List Char) :
    stripChars (stripChars l) = stripChars l := by
  conv_lhs => rw [stripChars]
  rw [stripChars_dropWhile l]
  have h2 : (stripChars l).reverse =
      (l.dropWhile isSpaceChar).reverse.dropWhile isSpaceChar := by
    rw [stripChars, List.reverse_reverse]
  rw [h2, dropWhile_dropWhile_eq]
  rw [stripChars]

theorem mem_stripChars (l : List Char) (c : Char) (h : c ∈ stripChars l) :
    c ∈ l := by
  rw [stripChars, List.mem_reverse] at h
  have h2 := (List.dropWhile_suffix isSpaceChar).sublist.subset h
  rw [List.mem_reverse] at h2
  exact (List.dropWhile_suffix isSpaceChar).sublist.subset h2

theorem decodeEntities_cons_of_ne (c : Char) (rest : List Char)
    (h : ¬ c = '&') :
    decodeEntities (c :: rest) = c :: decodeEntities rest := by
  rw [decodeEntities.eq_def]
  split
  case h_1 x heq => simp at heq
  case h_2 x rest2 heq =>
    injection heq with h1 h2
    exact absurd h1 h
  case h_3 x rest2 heq =>
    injection heq with h1 h2
    exact absurd h1 h
  case h_4 x rest2 heq =>
    injection heq with h1 h2
    exact absurd h1 h
  case h_5 x c2 rest2 hn1 hn2 hn3 heq =>
    injection heq with h1 h2
    rw [h1, h2]

theorem decodeEntities_of_no_amp (l : List Char)
    (h : ∀ c ∈ l, ¬ c = '&') : decodeEntities l = l := by
  induction l with
  | nil => rfl
  | cons c rest ih =>
    rw [decodeEntities_cons_of_ne c rest (h c (List.mem_cons_self c rest)),
      ih (fun x hx => h x (List.mem_cons_of_mem c hx))]

theorem tokenizeAux_false_no_lt (l : List Char) (acc : List Char)
    (h : ∀ c ∈ l, ¬ c = '<') :
    tokenizeAux false acc l = [acc.reverse ++ l] := by
  induction l generalizing acc with
  | nil => simp [tokenizeAux]
  | cons c rest ih =>
    show (if c = '<' then acc.reverse :: tokenizeAux true [] rest
          else tokenizeAux false (c :: acc) rest) = [acc.reverse ++ c :: rest]
    rw [if_neg (h c (List.mem_cons_self c rest)),
      ih (c :: acc) (fun x hx => h x (List.mem_cons_of_mem c hx))]
    simp

theorem tokenize_no_lt (l : List Char) (h : ∀ c ∈ l, ¬ c = '<') :
    tokenize l = [l] := by
  rw [tokenize, tokenizeAux_false_no_lt l [] h]
  rfl

theorem intercalate_singleton (x : List Char) :
    List.intercalate [' '] [x] = x := by
  simp [List.intercalate]

theorem get_text_no_markup (l : List Char) (hlt : ∀ c ∈ l, ¬ c = '<')
    (hamp : ∀ c ∈ l, ¬ c = '&') :
    get_text l = stripChars l := by
  rw [get_text, getTextNodes, tokenize_no_lt l hlt]
  have hmap : List.map (fun n => stripChars (decodeEntities n)) [l] =
      [stripChars l] := by
    simp [decodeEntities_of_no_amp l hamp]
  rw [hmap, List.filter_cons]
  by_cases he : stripChars l = []
  · rw [he]
    simp [List.intercalate]
  · rw [if_pos (by simp [he]), List.filter_nil]
    exact intercalate_singleton _

/-- An HTML-markup-free whitespace-padded string, for the C5 witness. -/
def plainPadded : String := "  Data Engineer  "

/-- **C5, counterexample**: the markup stripper is not idempotent.  On the
input `"&amp;lt;"` one application decodes the `&amp;` reference and yields
`"&lt;"`; a second application decodes that to `"<"`, so applying the
function twice differs from applying it once. -/
theorem extract_text_not_idempotent_cex :
    extract_text_from_html
        (some (extract_text_from_html (some "&amp;lt;"))) ≠
      extract_text_from_html (some "&amp;lt;") ∧
    extract_text_from_html (some "&amp;lt;") = "&lt;" ∧
    extract_text_from_html
        (some (extract_text_from_html (some "&amp;lt;"))) = "<" := by
  refine ⟨?_, ?_, ?_⟩ <;> decide

/-- **C5, amended**: the markup stripper is total — `None` and the empty
string yield `""`, and `"<p>A &amp; B</p>"` yields `"A & B"` — and applying
it twice equals applying it once on every input containing no `<` and no `&`
character; full idempotence fails because decoding character references can
re-expose markup (see the counterexample). -/
theorem extract_text_total_and_markup_free_idempotent :
    extract_text_from_html none = "" ∧
    extract_text_from_html (some "") = "" ∧
    extract_text_from_html (some "<p>A &amp; B</p>") = "A & B" ∧
    (∀ s : String, (∀ c ∈ s.toList, ¬ c = '<' ∧ ¬ c = '&') →
        extract_text_from_html (some (extract_text_from_html (some s))) =
          extract_text_from_html (some s)) := by
  refine ⟨rfl, rfl, by decide, ?_⟩
  intro s h
  by_cases hs : s = ""
  · subst hs; rfl
  · have hlt : ∀ c ∈ s.toList, ¬ c = '<' := fun c hc => (h c hc).1
    have hamp : ∀ c ∈ s.toList, ¬ c = '&' := fun c hc => (h c hc).2
    have hone : extract_text_from_html (some s) =
        String.mk (stripChars s.toList) := by
      show (if s = "" then "" else String.mk (get_text s.toList)) = _
      rw [if_neg hs, get_text_no_markup _ hlt hamp]
    rw [hone]
    by_cases hte : stripChars s.toList = []
    · rw [hte]
      rfl
    · have hmkne : String.mk (stripChars s.toList) ≠ "" := by
        intro hcontra
        apply hte
        have hdata : (String.mk (stripChars s.toList)).data =
            ("" : String).data := by rw [hcontra]
        simpa using hdata
      have hlt2 : ∀ c ∈ stripChars s.toList, ¬ c = '<' :=
        fun c hc => hlt c (mem_stripChars _ c hc)
      have hamp2 : ∀ c ∈ stripChars s.toList, ¬ c = '&' :=
        fun c hc => hamp c (mem_stripChars _ c hc)
      show (if String.mk (stripChars s.toList) = "" then ""
            else String.mk (get_text (String.mk (stripChars s.toList)).toList)) =
          String.mk (stripChars s.toList)
      rw [if_neg hmkne]
      show String.mk (get_text (stripChars s.toList)) = _
      rw [get_text_no_markup _ hlt2 hamp2, stripChars_idem]

/-- Witness for **C5 (amended)** at a whitespace-padded markup-free string. -/
theorem extract_text_markup_free_idempotent_witness :
    (∀ c ∈ plainPadded.toList, ¬ c = '<' ∧ ¬ c = '&') ∧
    extract_text_from_html
        (some (extract_text_from_html (some plainPadded))) =
      extract_text_from_html (some plainPadded) :=
  ⟨by decide,
   extract_text_total_and_markup_free_idempotent.2.2.2 plainPadded (by decide)⟩

end GuardianScraper
